import Mathlib

/-!
Shallow embedding of `reddit_converter.py` (mattmerrick/linksearch).

The Python module manipulates parsed JSON: nested dictionaries, lists,
strings, integers, booleans and `None`.  We embed those dynamic values as
the inductive type `JVal`.  A `jobj` models a dictionary produced by
`json.loads` (keys are unique after parsing; duplicate keys in a literal
association list are harmless — `jlookup` is still well defined).  Python's
`None` (both the JSON `null` value and the "absent key" result of
`dict.get`) is `jnull`.
-/

inductive JVal where
  | jnull : JVal
  | jbool (b : Bool) : JVal
  | jnum (n : Int) : JVal
  | jstr (s : String) : JVal
  | jarr (elems : List JVal) : JVal
  | jobj (fields : List (String × JVal)) : JVal

/-- Association-list lookup backing all dictionary accesses. -/
def jlookup : List (String × JVal) → String → Option JVal
  | [], _ => none
  | (k, v) :: rest, key => if key = k then some v else jlookup rest key

/-- `d.get(k)` — `None` when the key is absent.  (Python raises
`AttributeError` when the receiver is not a dict; the modelled code only
reaches that on malformed input no claim exercises, and we return `jnull`
there.) -/
def pyGet (o : JVal) (k : String) : JVal :=
  match o with
  | .jobj fs => (jlookup fs k).getD .jnull
  | _ => .jnull

/-- `d.get(k, dflt)` — the default applies only when the key is absent;
a key present with value `None` still returns `jnull`. -/
def pyGetD (o : JVal) (k : String) (dflt : JVal) : JVal :=
  match o with
  | .jobj fs => (jlookup fs k).getD dflt
  | _ => dflt

/-- `d[k]` — subscript access; `none` models the `KeyError` raised for a
missing key (or the `TypeError` for a non-dict receiver). -/
def pySubscript (o : JVal) (k : String) : Option JVal :=
  match o with
  | .jobj fs => jlookup fs k
  | _ => none

/-- Python truthiness of a parsed-JSON value. -/
def truthy : JVal → Bool
  | .jnull => false
  | .jbool b => b
  | .jnum n => n != 0
  | .jstr s => s != ""
  | .jarr elems => !elems.isEmpty
  | .jobj fields => !fields.isEmpty

/-- `s.endswith(t)` as a plain suffix test on the character lists. -/
def pyEndsWith (s t : String) : Bool :=
  t.data.isSuffixOf s.data

/-- `s.rstrip('/')` — removes ALL trailing `'/'` characters. -/
def pyRstripSlash (s : String) : String :=
  String.mk ((s.data.reverse.dropWhile (fun c => c = '/')).reverse)

/-- `ensure_json_url` (reddit_converter.py lines 15–21): return the URL
unchanged when it already ends with `".json"`; otherwise strip trailing
slashes and append `".json"`. -/
def ensure_json_url (url : String) : String :=
  if pyEndsWith url ".json" then url
  else pyRstripSlash url ++ ".json"

/-- `comment_data.get('kind') == 'more'` (line 70). -/
def isMoreKind : JVal → Bool
  | .jstr s => s == "more"
  | _ => false

/-- `comment_data.get('body') in [None, '[deleted]', '[removed]']` (line 70):
the body is absent (or JSON `null`) or one of the two moderation sentinels. -/
def isAbsentOrDeletedBody : JVal → Bool
  | .jnull => true
  | .jstr s => s == "[deleted]" || s == "[removed]"
  | _ => false

/-- The full skip condition of line 70. -/
def skipNode (comment_data : JVal) : Bool :=
  isMoreKind (pyGet comment_data "kind")
    || isAbsentOrDeletedBody (pyGet comment_data "body")

/-- The dictionary built at lines 77–86 for one emitted comment. -/
structure Comment where
  body : JVal
  author : JVal
  score : JVal
  upvotes : JVal
  downvotes : JVal
  created_utc : JVal
  is_submitter : JVal
  permalink : JVal

/-- Lines 77–86: project the node's data payload into a `Comment`. -/
def mkComment (comment_data : JVal) : Comment :=
  ⟨pyGetD comment_data "body" (.jstr ""),
   pyGetD comment_data "author" (.jstr "[deleted]"),
   pyGetD comment_data "score" (.jnum 0),
   pyGetD comment_data "ups" (.jnum 0),
   pyGetD comment_data "downs" (.jnum 0),
   pyGetD comment_data "created_utc" (.jnum 0),
   pyGetD comment_data "is_submitter" (.jbool false),
   pyGetD comment_data "permalink" (.jstr "")⟩

/-- `comment_data['replies'].get('data', {}).get('children', [])`
(lines 71–73 and 93–96) folded together with the guards around it:
`'replies' in comment_data and comment_data['replies']` and the
`isinstance(..., dict)` check only prevent iterating what is empty here
anyway.  A non-list `children` value is modelled as no children (Python
iterates a string or dict — whose elements are strings contributing no
records — or raises on a non-iterable; no claim distinguishes). -/
def childListings (comment_data : JVal) : List JVal :=
  match comment_data with
  | .jobj fs =>
    match jlookup fs "replies" with
    | some (.jobj rfs) =>
      (match jlookup rfs "data" with
       | some (.jobj dfs) =>
         (match jlookup dfs "children" with
          | some (.jarr cs) => cs
          | _ => [])
       | _ => [])
    | _ => []
  | _ => []

/-- `traverse_comments` (lines 62–96): skip placeholder/deleted nodes but
still descend into their replies; otherwise emit a record when the body is
truthy, then descend. -/
def traverse_comments (comment_tree : JVal) : List Comment :=
  match comment_tree with
  | .jobj fields =>
    match hdata : jlookup fields "data" with
    | none => []      -- `if 'data' not in comment_tree: return`
    | some comment_data =>
      if skipNode comment_data then
        ((childListings comment_data).attach.map
          (fun c => traverse_comments c.1)).flatten
      else
        (if truthy (mkComment comment_data).body
          then [mkComment comment_data] else [])
        ++ ((childListings comment_data).attach.map
          (fun c => traverse_comments c.1)).flatten
  | _ => []           -- a non-mapping node contributes nothing
termination_by sizeOf comment_tree
decreasing_by
  all_goals
  have hsize : ∀ (fs : List (String × JVal)) (k : String) (v : JVal),
      jlookup fs k = some v → sizeOf v < sizeOf (JVal.jobj fs) := by
    intro fs
    induction fs with
    | nil => intro k v h; simp [jlookup] at h
    | cons hd tl ih =>
      intro k v h
      obtain ⟨k2, v2⟩ := hd
      simp only [jlookup] at h
      split at h
      · cases h
        simp
        omega
      · have hv := ih _ _ h
        simp at hv ⊢
        omega
  have hchild : ∀ (cd e : JVal), e ∈ childListings cd → sizeOf e < sizeOf cd := by
    intro cd e he
    unfold childListings at he
    split at he
    · split at he
      · rename_i rfs hrep
        split at he
        · rename_i dfs hdat
          split at he
          · rename_i cs hch
            have h1 := hsize _ _ _ hrep
            have h2 := hsize _ _ _ hdat
            have h3 := hsize _ _ _ hch
            have h4 := List.sizeOf_lt_of_mem he
            simp at h1 h2 h3 ⊢
            omega
          · exact absurd he (List.not_mem_nil _)
        · exact absurd he (List.not_mem_nil _)
      · exact absurd he (List.not_mem_nil _)
    · exact absurd he (List.not_mem_nil _)
  have h1 := hchild _ _ c.2
  have h2 := hsize _ _ _ hdata
  omega

/-- `extract_comments` (lines 55–103).  `none` models an uncaught
exception (`KeyError` for a missing key, `TypeError` for a bad subscript
or a non-iterable children value) escaping the function. -/
def extract_comments (data : List JVal) : Option (List Comment) :=
  match data with
  | _ :: second :: _ =>
    (match pySubscript second "data" with
     | none => none
     | some d =>
       match pySubscript d "children" with
       | none => none
       | some cs =>
         match cs with
         | .jarr comment_trees =>
           some ((comment_trees.map traverse_comments).flatten)
         | .jstr _ => some []   -- iterating a string yields 1-char strings; they emit nothing
         | .jobj _ => some []   -- iterating a dict yields its (string) keys; they emit nothing
         | _ => none)           -- not iterable
  | _ => some []                -- `if len(data) < 2: return comments` (still empty)

/-- `extract_post_info` (lines 40–52): the empty dict for an empty input;
otherwise project the nested path `data[0]['data']['children'][0]['data']`,
with `none` modelling the exception escaping on a malformed structure. -/
def extract_post_info (data : List JVal) : Option JVal :=
  match data with
  | [] => some (.jobj [])      -- `if not data or len(data) < 1: return {}`
  | first :: _ =>
    match pySubscript first "data" with
    | none => none
    | some d =>
      match pySubscript d "children" with
      | none => none
      | some cs =>
        match cs with
        | .jarr (c0 :: _) =>
          (match pySubscript c0 "data" with
           | none => none
           | some pd =>
             match pd with
             | .jobj _ => some (.jobj
                 [("title", pyGetD pd "title" (.jstr "")),
                  ("selftext", pyGetD pd "selftext" (.jstr "")),
                  ("author", pyGetD pd "author" (.jstr "")),
                  ("score", pyGetD pd "score" (.jnum 0)),
                  ("url", pyGetD pd "url" (.jstr ""))])
             | _ => none)      -- `.get` on a non-dict raises
        | .jarr [] => none     -- `[0]` raises `IndexError`
        | _ => none            -- subscript `[0]` on a non-list raises

/-- Strict `>` between the Python values used as sort keys.  Python raises
on a comparison involving a non-integer; those cases are `false` here and
the ranking theorems assume integer keys, as the CommentRecord contract
does. -/
def upvotesGt : JVal → JVal → Bool
  | .jnum a, .jnum b => decide (b < a)
  | _, _ => false

/-- Non-strict `≥` between sort keys (integers only). -/
def upvotesGe : JVal → JVal → Bool
  | .jnum a, .jnum b => decide (b ≤ a)
  | _, _ => false

/-- Stable descending insertion: `c` passes every element with a strictly
greater key and stops before the first element it ties with — exactly the
relative order Python's stable `sorted(..., reverse=True)` produces. -/
def insertByUpvotes (c : Comment) : List Comment → List Comment
  | [] => [c]
  | d :: ds =>
    if upvotesGt d.upvotes c.upvotes then d :: insertByUpvotes c ds
    else c :: d :: ds

/-- `sort_comments_by_upvotes` (lines 106–108):
`sorted(comments, key=lambda x: x['upvotes'], reverse=True)` — a stable
sort descending on the `upvotes` field, realised as a stable insertion
sort (extensionally the unique stable descending reordering). -/
def sort_comments_by_upvotes (comments : List Comment) : List Comment :=
  comments.foldr insertByUpvotes []

mutual

/-- Python `repr` of a parsed-JSON value (string escaping not modelled;
no rendered field in the claims contains a quote or an escape). -/
def pyRepr : JVal → String
  | .jnull => "None"
  | .jbool true => "True"
  | .jbool false => "False"
  | .jnum n => toString n
  | .jstr s => "\x27" ++ s ++ "\x27"
  | .jarr elems => "[" ++ String.intercalate ", " (pyReprList elems) ++ "]"
  | .jobj fields =>
    "\x7b" ++ String.intercalate ", " (pyReprFields fields) ++ "\x7d"

def pyReprList : List JVal → List String
  | [] => []
  | v :: vs => pyRepr v :: pyReprList vs

def pyReprFields : List (String × JVal) → List String
  | [] => []
  | (k, v) :: fs => ("\x27" ++ k ++ "\x27: " ++ pyRepr v) :: pyReprFields fs

end

/-- Python `str` as used by f-string interpolation: identity on strings,
`repr`-shaped elsewhere. -/
def pyStr : JVal → String
  | .jstr s => s
  | v => pyRepr v

/-- `"=" * 80`. -/
def bannerEq : String := String.mk (List.replicate 80 '=')

/-- `"-" * 80`. -/
def bannerDash : String := String.mk (List.replicate 80 '-')

/-- The lines appended for one ranked comment (lines 137–146), 1-based. -/
def comment_block (idx : Nat) (c : Comment) : List String :=
  ["Comment #" ++ toString idx, bannerDash,
   "Upvotes: " ++ pyStr c.upvotes ++ " | Score: " ++ pyStr c.score
     ++ " | Author: u/" ++ pyStr c.author]
  ++ (if truthy c.is_submitter then ["(Original Poster)"] else [])
  ++ ["", pyStr c.body, "", ""]

/-- `for idx, comment in enumerate(comments, 1)` (line 137). -/
def comment_blocks (idx : Nat) : List Comment → List String
  | [] => []
  | c :: rest => comment_block idx c ++ comment_blocks (idx + 1) rest

/-- The `output` list built by `format_output` (lines 113–146). -/
def format_output_lines (post_info : JVal) (comments : List Comment) :
    List String :=
  [bannerEq, "REDDIT POST", bannerEq,
   "Title: " ++ pyStr (pyGetD post_info "title" (.jstr "N/A")),
   "Author: u/" ++ pyStr (pyGetD post_info "author" (.jstr "N/A")),
   "Score: " ++ pyStr (pyGetD post_info "score" (.jnum 0)) ++ " upvotes",
   ""]
  ++ (if truthy (pyGet post_info "selftext") then
        ["Post Content:", bannerDash, pyStr (pyGet post_info "selftext"), ""]
      else [])
  ++ [bannerEq, "COMMENTS (Sorted by Upvotes, Highest First)",
      "Total Comments: " ++ toString comments.length,
      bannerEq, ""]
  ++ comment_blocks 1 comments

/-- `format_output` (lines 111–148): `"\n".join(output)`. -/
def format_output (post_info : JVal) (comments : List Comment) : String :=
  String.intercalate "\n" (format_output_lines post_info comments)

/-- `upvotes == k` as a Boolean predicate on a record, for stability
statements. -/
def upsEq (c : Comment) (k : Int) : Bool :=
  match c.upvotes with
  | .jnum n => n == k
  | _ => false

/-- Scenario node: a reply with body `"hello"`. -/
def helloChild : JVal :=
  .jobj [("data", .jobj [("body", .jstr "hello")])]

/-- Scenario payload: body `"[deleted]"`, one reply `helloChild`. -/
def deletedPayload : JVal :=
  .jobj [("body", .jstr "[deleted]"),
         ("replies", .jobj [("data", .jobj [("children", .jarr [helloChild])])])]

/-- Scenario node: a `"[deleted]"` comment with `helloChild` as its only
reply. -/
def deletedNode : JVal := .jobj [("data", deletedPayload)]

/-- Scenario input: a two-listing structure whose comment listing holds
exactly `deletedNode`. -/
def scenarioData : List JVal :=
  [.jnull, .jobj [("data", .jobj [("children", .jarr [deletedNode])])]]

/-- The record `traverse_comments` builds for `helloChild`. -/
def helloComment : Comment := mkComment (.jobj [("body", .jstr "hello")])

/-- Scenario node: a reply with body `"hi"`. -/
def hiChild : JVal :=
  .jobj [("data", .jobj [("body", .jstr "hi")])]

/-- Scenario payload: body present but the empty string, one reply
`hiChild`. -/
def emptyBodyPayload : JVal :=
  .jobj [("body", .jstr ""),
         ("replies", .jobj [("data", .jobj [("children", .jarr [hiChild])])])]

/-- Scenario node: a comment whose body is present but the empty string,
with `hiChild` as its only reply. -/
def emptyBodyNode : JVal := .jobj [("data", emptyBodyPayload)]

/-- The record `traverse_comments` builds for `hiChild`. -/
def hiComment : Comment := mkComment (.jobj [("body", .jstr "hi")])

/-- A record with 5 upvotes (the spec's comment `A`). -/
def commentA : Comment :=
  ⟨.jstr "A", .jstr "alice", .jnum 5, .jnum 5, .jnum 0, .jnum 0,
   .jbool false, .jstr ""⟩

/-- A record with 10 upvotes (the spec's comment `B`). -/
def commentB : Comment :=
  ⟨.jstr "B", .jstr "bob", .jnum 10, .jnum 10, .jnum 0, .jnum 0,
   .jbool false, .jstr ""⟩

/-- Records in traversal order `[A(5), B(10)]`. -/
def rankExample : List Comment := [commentA, commentB]

/-! ## Lemmas about `ensure_json_url` -/

theorem pyEndsWith_append_json (s : String) :
    pyEndsWith (s ++ ".json") ".json" = true := by
  simp only [pyEndsWith, String.data_append, List.isSuffixOf_iff_suffix]
  exact List.suffix_append _ _

theorem ensure_json_url_endsWith (url : String) :
    pyEndsWith (ensure_json_url url) ".json" = true := by
  unfold ensure_json_url
  split
  · assumption
  · exact pyEndsWith_append_json _

theorem pyEndsWith_slash_json (s : String) :
    pyEndsWith (s ++ "/") ".json" = false := by
  simp only [pyEndsWith, String.data_append]
  simp [List.isSuffixOf, List.isPrefixOf, List.reverse_append]

theorem pyRstripSlash_append_slash (s : String) :
    pyRstripSlash (s ++ "/") = pyRstripSlash s := by
  have h1 : "/".data = ['/'] := rfl
  simp [pyRstripSlash, String.data_append, h1, List.dropWhile]

/-- C8: for every input string, `ensure_json_url` returns a string ending
in `".json"`. -/
theorem claim_C8_result_endswith_json (url : String) :
    pyEndsWith (ensure_json_url url) ".json" = true :=
  ensure_json_url_endsWith url

/-- C10: `ensure_json_url` is idempotent. -/
theorem claim_C10_idempotent (url : String) :
    ensure_json_url (ensure_json_url url) = ensure_json_url url := by
  rw [ensure_json_url.eq_def]
  simp [ensure_json_url_endsWith url]

/-- C4 counterexample: the claim says exactly one trailing `'/'` is
stripped, so `"a//"` would become `"a/.json"`; the code strips all
trailing separators and yields `"a.json"`. -/
theorem claim_C4_counterexample :
    ensure_json_url "a//" = "a.json" ∧ "a.json" ≠ "a/.json" := by
  constructor
  · rfl
  · decide

/-- C4 (amended): `ensure_json_url` returns the input unchanged when it
already ends with `".json"`; otherwise it strips ALL trailing `'/'`
characters and appends `".json"`; in particular a URL with exactly one
trailing separator whose stripped form does not end in `".json"`
normalizes the same as its stripped form. -/
theorem claim_C4_amended (u s : String)
    (hu : pyEndsWith u ".json" = true)
    (_hone : pyEndsWith s "/" = false)
    (hs : pyEndsWith s ".json" = false) :
    ensure_json_url u = u ∧ ensure_json_url (s ++ "/") = ensure_json_url s := by
  constructor
  · unfold ensure_json_url
    rw [if_pos hu]
  · unfold ensure_json_url
    rw [if_neg (by simp [pyEndsWith_slash_json s]),
        if_neg (by simp [hs]), pyRstripSlash_append_slash]

/-- C4 witness: the amended statement at `u = "x.json"`, `s = "a"`. -/
theorem claim_C4_amended_witness :
    ensure_json_url "x.json" = "x.json"
    ∧ ensure_json_url ("a" ++ "/") = ensure_json_url "a" :=
  claim_C4_amended "x.json" "a" (by decide) (by decide) (by decide)

/-! ## Error-handling claims -/

/-- C5 counterexample: on `[{}]` (a nonempty structure whose first
element lacks the nested `data`/`children` path) `extract_post_info`
fails with a `KeyError` (modelled as `none`) instead of returning the
all-default metadata. -/
theorem claim_C5_counterexample :
    extract_post_info [JVal.jobj []] = none := rfl

/-- C5 (amended): `extract_post_info` returns the empty (all-default)
metadata, raising no failure, when the top-level structure has fewer than
1 element; a nonempty structure missing the nested path fails instead. -/
theorem claim_C5_amended (data : List JVal) (h : data.length < 1) :
    extract_post_info data = some (JVal.jobj []) := by
  cases data with
  | nil => rfl
  | cons first rest => simp at h

/-- C5 witness: the amended statement at the empty structure. -/
theorem claim_C5_amended_witness :
    extract_post_info [] = some (JVal.jobj []) :=
  claim_C5_amended [] (by decide)

/-- C6 counterexample: on `[{}, {}]` (two elements, the comment listing
lacking the nested `data`/`children` path) `extract_comments` fails with
a `KeyError` (modelled as `none`) instead of returning the empty
sequence. -/
theorem claim_C6_counterexample :
    extract_comments [JVal.jobj [], JVal.jobj []] = none := rfl

/-- C6 (amended): `extract_comments` returns the empty sequence, raising
no failure, when the top-level structure has fewer than 2 elements; a
comment listing that is present but lacks the nested children path fails
instead. -/
theorem claim_C6_amended (data : List JVal) (h : data.length < 2) :
    extract_comments data = some [] := by
  match data with
  | [] => rfl
  | [_] => rfl
  | _ :: _ :: _ => simp at h; omega

/-- C6 witness: the amended statement at a one-element structure. -/
theorem claim_C6_amended_witness :
    extract_comments [JVal.jnull] = some [] :=
  claim_C6_amended [JVal.jnull] (by decide)

/-! ## Lemmas about the comment traversal -/

theorem jlookup_sizeOf_lt :
    ∀ (fs : List (String × JVal)) (k : String) (v : JVal),
      jlookup fs k = some v → sizeOf v < sizeOf (JVal.jobj fs) := by
  intro fs
  induction fs with
  | nil => intro k v h; simp [jlookup] at h
  | cons hd tl ih =>
    intro k v h
    obtain ⟨k2, v2⟩ := hd
    simp only [jlookup] at h
    split at h
    · cases h
      simp
      omega
    · have hv := ih _ _ h
      simp at hv ⊢
      omega

theorem childListings_sizeOf_lt (cd e : JVal) (he : e ∈ childListings cd) :
    sizeOf e < sizeOf cd := by
  unfold childListings at he
  split at he
  · split at he
    · rename_i rfs hrep
      split at he
      · rename_i dfs hdat
        split at he
        · rename_i cs hch
          have h1 := jlookup_sizeOf_lt _ _ _ hrep
          have h2 := jlookup_sizeOf_lt _ _ _ hdat
          have h3 := jlookup_sizeOf_lt _ _ _ hch
          have h4 := List.sizeOf_lt_of_mem he
          simp at h1 h2 h3 ⊢
          omega
        · exact absurd he (List.not_mem_nil _)
      · exact absurd he (List.not_mem_nil _)
    · exact absurd he (List.not_mem_nil _)
  · exact absurd he (List.not_mem_nil _)

theorem traverse_comments_not_obj (t : JVal)
    (h : ∀ fs, t ≠ JVal.jobj fs) : traverse_comments t = [] := by
  cases t with
  | jobj fs => exact absurd rfl (h fs)
  | jnull => rw [traverse_comments]; simp
  | jbool b => rw [traverse_comments]; simp
  | jnum n => rw [traverse_comments]; simp
  | jstr s => rw [traverse_comments]; simp
  | jarr elems => rw [traverse_comments]; simp

theorem traverse_comments_no_data (fields : List (String × JVal))
    (h : jlookup fields "data" = none) :
    traverse_comments (.jobj fields) = [] := by
  rw [traverse_comments]
  split
  · rfl
  · rename_i cd heq
    rw [h] at heq
    exact absurd heq (by simp)

theorem traverse_comments_skip (fields : List (String × JVal)) (cd : JVal)
    (h : jlookup fields "data" = some cd) (hskip : skipNode cd = true) :
    traverse_comments (.jobj fields)
      = ((childListings cd).map traverse_comments).flatten := by
  rw [traverse_comments]
  split
  · rename_i heq
    rw [h] at heq
    exact absurd heq (by simp)
  · rename_i cd2 heq
    rw [h] at heq
    injection heq with heq2
    subst heq2
    rw [if_pos hskip]
    simp [List.attach_map_val]

theorem traverse_comments_emit (fields : List (String × JVal)) (cd : JVal)
    (h : jlookup fields "data" = some cd) (hskip : skipNode cd = false) :
    traverse_comments (.jobj fields)
      = (if truthy (mkComment cd).body then [mkComment cd] else [])
        ++ ((childListings cd).map traverse_comments).flatten := by
  rw [traverse_comments]
  split
  · rename_i heq
    rw [h] at heq
    exact absurd heq (by simp)
  · rename_i cd2 heq
    rw [h] at heq
    injection heq with heq2
    subst heq2
    rw [if_neg (by simp [hskip])]
    simp [List.attach_map_val]

/-- C7: for every post-info value and comment sequence, the rendered
lines open with the 80-`=` banner, the `REDDIT POST` line and another
banner, and contain a `Total Comments:` line showing exactly the length
of the comment sequence (hence `Total Comments: 0` for the empty
sequence). -/
theorem claim_C7_render_banner_and_count (post_info : JVal)
    (comments : List Comment) :
    (format_output_lines post_info comments).take 3
      = [bannerEq, "REDDIT POST", bannerEq]
    ∧ ("Total Comments: " ++ toString comments.length)
        ∈ format_output_lines post_info comments := by
  constructor
  · simp [format_output_lines]
  · simp [format_output_lines]

/-! ## Traversal claims -/

theorem pyGetD_eq_of_pyGet (o : JVal) (k : String) (d v : JVal)
    (h : pyGet o k = v) (hv : v ≠ JVal.jnull) : pyGetD o k d = v := by
  cases o with
  | jobj fs =>
    simp only [pyGet] at h
    simp only [pyGetD]
    cases hl : jlookup fs k with
    | none =>
      rw [hl] at h
      simp at h
      exact absurd h.symm hv
    | some w =>
      rw [hl] at h
      simpa using h
  | jnull => simp [pyGet] at h; exact absurd h.symm hv
  | jbool b => simp [pyGet] at h; exact absurd h.symm hv
  | jnum n => simp [pyGet] at h; exact absurd h.symm hv
  | jstr s => simp [pyGet] at h; exact absurd h.symm hv
  | jarr elems => simp [pyGet] at h; exact absurd h.symm hv

theorem traverse_helloChild : traverse_comments helloChild = [helloComment] := by
  unfold helloChild
  rw [traverse_comments_emit [("data", JVal.jobj [("body", JVal.jstr "hello")])]
    (JVal.jobj [("body", JVal.jstr "hello")]) rfl rfl]
  simp [childListings, jlookup, mkComment, pyGetD, truthy, helloComment]

theorem traverse_deletedNode : traverse_comments deletedNode = [helloComment] := by
  unfold deletedNode
  rw [traverse_comments_skip [("data", deletedPayload)] deletedPayload rfl rfl]
  have hc : childListings deletedPayload = [helloChild] := rfl
  rw [hc]
  simp [traverse_helloChild]

theorem traverse_hiChild : traverse_comments hiChild = [hiComment] := by
  unfold hiChild
  rw [traverse_comments_emit [("data", JVal.jobj [("body", JVal.jstr "hi")])]
    (JVal.jobj [("body", JVal.jstr "hi")]) rfl rfl]
  simp [childListings, jlookup, mkComment, pyGetD, truthy, hiComment]

theorem traverse_emptyBodyNode :
    traverse_comments emptyBodyNode = [hiComment] := by
  unfold emptyBodyNode
  rw [traverse_comments_emit [("data", emptyBodyPayload)] emptyBodyPayload rfl rfl]
  have hc : childListings emptyBodyPayload = [hiChild] := rfl
  rw [hc]
  have hb : (mkComment emptyBodyPayload).body = JVal.jstr "" := rfl
  rw [hb]
  simp [truthy, traverse_hiChild]

theorem traverse_comments_body_truthy :
    ∀ (t : JVal) (c : Comment), c ∈ traverse_comments t →
      truthy c.body = true := by
  have H : ∀ (n : Nat) (t : JVal), sizeOf t ≤ n →
      ∀ (c : Comment), c ∈ traverse_comments t → truthy c.body = true := by
    intro n
    induction n with
    | zero =>
      intro t ht
      exfalso
      cases t <;> simp at ht
    | succ n ih =>
      intro t ht c hc
      cases t with
      | jobj fields =>
        cases hdata : jlookup fields "data" with
        | none =>
          rw [traverse_comments_no_data _ hdata] at hc
          exact absurd hc (List.not_mem_nil _)
        | some cd =>
          have hcd := jlookup_sizeOf_lt _ _ _ hdata
          by_cases hskip : skipNode cd = true
          · rw [traverse_comments_skip _ _ hdata hskip] at hc
            rw [List.mem_flatten] at hc
            obtain ⟨l, hl, hcl⟩ := hc
            rw [List.mem_map] at hl
            obtain ⟨e, he, rfl⟩ := hl
            have hse := childListings_sizeOf_lt _ _ he
            exact ih e (by omega) c hcl
          · rw [traverse_comments_emit _ _ hdata (by simpa using hskip)] at hc
            rcases List.mem_append.mp hc with hmem | hmem
            · split at hmem
              · rename_i htr
                rw [List.mem_singleton] at hmem
                subst hmem
                exact htr
              · exact absurd hmem (List.not_mem_nil _)
            · rw [List.mem_flatten] at hmem
              obtain ⟨l, hl, hcl⟩ := hmem
              rw [List.mem_map] at hl
              obtain ⟨e, he, rfl⟩ := hl
              have hse := childListings_sizeOf_lt _ _ he
              exact ih e (by omega) c hcl
      | jnull =>
        rw [traverse_comments_not_obj _ (by simp)] at hc
        exact absurd hc (List.not_mem_nil _)
      | jbool b =>
        rw [traverse_comments_not_obj _ (by simp)] at hc
        exact absurd hc (List.not_mem_nil _)
      | jnum m =>
        rw [traverse_comments_not_obj _ (by simp)] at hc
        exact absurd hc (List.not_mem_nil _)
      | jstr s =>
        rw [traverse_comments_not_obj _ (by simp)] at hc
        exact absurd hc (List.not_mem_nil _)
      | jarr elems =>
        rw [traverse_comments_not_obj _ (by simp)] at hc
        exact absurd hc (List.not_mem_nil _)
  intro t c hc
  exact H (sizeOf t) t le_rfl c hc

/-- C1: a node whose kind marker is `"more"` or whose body is missing,
`"[deleted]"` or `"[removed]"` emits no record but its children listing is
still traversed; on the scenario input whose comment listing holds one
`"[deleted]"` node with one `"hello"` reply, the flattened output is
exactly one record, with body `"hello"`. -/
theorem claim_C1_skip_but_descend (fields : List (String × JVal)) (cd : JVal)
    (hdata : jlookup fields "data" = some cd) (hskip : skipNode cd = true) :
    traverse_comments (.jobj fields)
      = ((childListings cd).map traverse_comments).flatten
    ∧ extract_comments scenarioData = some [helloComment]
    ∧ helloComment.body = JVal.jstr "hello" := by
  refine ⟨traverse_comments_skip _ _ hdata hskip, ?_, rfl⟩
  unfold scenarioData extract_comments
  simp [pySubscript, jlookup, traverse_deletedNode]

/-- C1 witness: the skip-but-descend equation at the `"[deleted]"`
scenario node. -/
theorem claim_C1_witness :
    traverse_comments (.jobj [("data", deletedPayload)])
      = ((childListings deletedPayload).map traverse_comments).flatten
    ∧ extract_comments scenarioData = some [helloComment]
    ∧ helloComment.body = JVal.jstr "hello" :=
  claim_C1_skip_but_descend [("data", deletedPayload)] deletedPayload rfl rfl

/-- C3: every record emitted by the traversal has a truthy (hence
non-empty, non-missing) body. -/
theorem claim_C3_nonempty_bodies (t : JVal) (c : Comment)
    (hc : c ∈ traverse_comments t) :
    truthy c.body = true ∧ c.body ≠ JVal.jstr "" ∧ c.body ≠ JVal.jnull := by
  have ht := traverse_comments_body_truthy t c hc
  refine ⟨ht, ?_, ?_⟩
  · intro hb; rw [hb] at ht; simp [truthy] at ht
  · intro hb; rw [hb] at ht; simp [truthy] at ht

/-- C3 witness: the invariant at the record emitted for the `"hello"`
reply of the scenario node. -/
theorem claim_C3_witness :
    truthy helloComment.body = true ∧ helloComment.body ≠ JVal.jstr ""
      ∧ helloComment.body ≠ JVal.jnull :=
  claim_C3_nonempty_bodies deletedNode helloComment
    (by rw [traverse_deletedNode]; exact List.mem_singleton_self _)

/-- C9: a visited node whose body is present but equal to the empty
string emits no record, yet its children listing is still traversed; on
the scenario node with empty body and one `"hi"` reply, the output is
exactly the `"hi"` record. -/
theorem claim_C9_empty_body_skip (fields : List (String × JVal)) (cd : JVal)
    (hdata : jlookup fields "data" = some cd)
    (hbody : pyGet cd "body" = JVal.jstr "") :
    traverse_comments (.jobj fields)
      = ((childListings cd).map traverse_comments).flatten
    ∧ traverse_comments emptyBodyNode = [hiComment]
    ∧ hiComment.body = JVal.jstr "hi" := by
  refine ⟨?_, traverse_emptyBodyNode, rfl⟩
  by_cases hskip : skipNode cd = true
  · exact traverse_comments_skip _ _ hdata hskip
  · rw [traverse_comments_emit _ _ hdata (by simpa using hskip)]
    have hb : (mkComment cd).body = JVal.jstr "" :=
      pyGetD_eq_of_pyGet cd "body" _ _ hbody (by simp)
    rw [hb]
    simp [truthy]

/-- C9 witness: the equation at the empty-body scenario payload. -/
theorem claim_C9_witness :
    traverse_comments (.jobj [("data", emptyBodyPayload)])
      = ((childListings emptyBodyPayload).map traverse_comments).flatten
    ∧ traverse_comments emptyBodyNode = [hiComment]
    ∧ hiComment.body = JVal.jstr "hi" :=
  claim_C9_empty_body_skip [("data", emptyBodyPayload)] emptyBodyPayload rfl rfl

/-! ## Ranking claims -/

theorem insertByUpvotes_perm (c : Comment) (l : List Comment) :
    (insertByUpvotes c l).Perm (c :: l) := by
  induction l with
  | nil => simp [insertByUpvotes]
  | cons d ds ih =>
    simp only [insertByUpvotes]
    split
    · exact (ih.cons d).trans (List.Perm.swap c d ds)
    · exact List.Perm.refl _

theorem sort_cons (c : Comment) (cs : List Comment) :
    sort_comments_by_upvotes (c :: cs)
      = insertByUpvotes c (sort_comments_by_upvotes cs) := rfl

theorem sort_comments_perm (l : List Comment) :
    (sort_comments_by_upvotes l).Perm l := by
  induction l with
  | nil => exact List.Perm.refl _
  | cons c cs ih =>
    rw [sort_cons]
    exact (insertByUpvotes_perm c _).trans (ih.cons c)

theorem upvotesGe_of_gt {a b : JVal} (h : upvotesGt a b = true) :
    upvotesGe a b = true := by
  cases a <;> cases b <;> simp [upvotesGt, upvotesGe] at * <;> omega

theorem upvotesGe_of_not_gt {a b : JVal}
    (ha : ∃ n : Int, a = JVal.jnum n) (hb : ∃ n : Int, b = JVal.jnum n)
    (h : upvotesGt a b = false) : upvotesGe b a = true := by
  obtain ⟨m, rfl⟩ := ha
  obtain ⟨n, rfl⟩ := hb
  simp [upvotesGt, upvotesGe] at *
  omega

theorem upvotesGe_trans {a b c : JVal} (h1 : upvotesGe a b = true)
    (h2 : upvotesGe b c = true) : upvotesGe a c = true := by
  cases a <;> cases b <;> cases c <;> simp [upvotesGe] at * <;> omega

theorem pairwise_insertByUpvotes (c : Comment) (l : List Comment)
    (hc : ∃ n : Int, c.upvotes = JVal.jnum n)
    (hl : ∀ d ∈ l, ∃ n : Int, d.upvotes = JVal.jnum n)
    (hp : l.Pairwise (fun a b => upvotesGe a.upvotes b.upvotes = true)) :
    (insertByUpvotes c l).Pairwise
      (fun a b => upvotesGe a.upvotes b.upvotes = true) := by
  induction l with
  | nil => simp [insertByUpvotes]
  | cons d ds ih =>
    rw [List.pairwise_cons] at hp
    obtain ⟨hd_all, hp_ds⟩ := hp
    simp only [insertByUpvotes]
    split
    · rename_i hgt
      rw [List.pairwise_cons]
      constructor
      · intro e he
        have hmem := (insertByUpvotes_perm c ds).mem_iff.mp he
        rcases List.mem_cons.mp hmem with rfl | hin
        · exact upvotesGe_of_gt hgt
        · exact hd_all e hin
      · exact ih (fun e he => hl e (List.mem_cons_of_mem d he)) hp_ds
    · rename_i hngt
      have hge : upvotesGe c.upvotes d.upvotes = true :=
        upvotesGe_of_not_gt (hl d (List.mem_cons_self d ds)) hc
          (by simpa using hngt)
      rw [List.pairwise_cons]
      constructor
      · intro e he
        rcases List.mem_cons.mp he with rfl | hin
        · exact hge
        · exact upvotesGe_trans hge (hd_all e hin)
      · exact List.pairwise_cons.mpr ⟨hd_all, hp_ds⟩

theorem sort_comments_pairwise (l : List Comment)
    (hl : ∀ d ∈ l, ∃ n : Int, d.upvotes = JVal.jnum n) :
    (sort_comments_by_upvotes l).Pairwise
      (fun a b => upvotesGe a.upvotes b.upvotes = true) := by
  induction l with
  | nil => simp [sort_comments_by_upvotes]
  | cons c cs ih =>
    rw [sort_cons]
    apply pairwise_insertByUpvotes
    · exact hl c (List.mem_cons_self c cs)
    · intro d hd
      exact hl d (List.mem_cons_of_mem c ((sort_comments_perm cs).subset hd))
    · exact ih (fun d hd => hl d (List.mem_cons_of_mem c hd))

theorem filter_insertByUpvotes_pos (c : Comment) (l : List Comment) (k : Int)
    (hck : c.upvotes = JVal.jnum k) :
    (insertByUpvotes c l).filter (fun d => upsEq d k)
      = c :: l.filter (fun d => upsEq d k) := by
  induction l with
  | nil => simp [insertByUpvotes, List.filter, upsEq, hck]
  | cons d ds ih =>
    simp only [insertByUpvotes]
    split
    · rename_i hgt
      have hPd : upsEq d k = false := by
        cases hd : d.upvotes with
        | jnum m =>
          simp only [upsEq, hd]
          rw [hd, hck] at hgt
          simp [upvotesGt] at hgt
          simp
          omega
        | jnull => simp [upsEq, hd]
        | jbool b => simp [upsEq, hd]
        | jstr s => simp [upsEq, hd]
        | jarr elems => simp [upsEq, hd]
        | jobj fields => simp [upsEq, hd]
      rw [List.filter_cons, List.filter_cons]
      simp only [hPd]
      simp [ih]
    · have hPc : upsEq c k = true := by simp [upsEq, hck]
      rw [List.filter_cons]
      simp [hPc]

theorem filter_insertByUpvotes_neg (c : Comment) (l : List Comment) (k : Int)
    (hck : upsEq c k = false) :
    (insertByUpvotes c l).filter (fun d => upsEq d k)
      = l.filter (fun d => upsEq d k) := by
  induction l with
  | nil => simp [insertByUpvotes, List.filter, hck]
  | cons d ds ih =>
    simp only [insertByUpvotes]
    split
    · rw [List.filter_cons, List.filter_cons, ih]
    · rw [List.filter_cons]
      simp [hck]

theorem filter_sort_comments (l : List Comment) (k : Int) :
    (sort_comments_by_upvotes l).filter (fun d => upsEq d k)
      = l.filter (fun d => upsEq d k) := by
  induction l with
  | nil => rfl
  | cons c cs ih =>
    rw [sort_cons]
    by_cases hck : upsEq c k = true
    · have hk : c.upvotes = JVal.jnum k := by
        cases hd : c.upvotes with
        | jnum m =>
          simp [upsEq, hd] at hck
          rw [hck]
        | jnull => simp [upsEq, hd] at hck
        | jbool b => simp [upsEq, hd] at hck
        | jstr s => simp [upsEq, hd] at hck
        | jarr elems => simp [upsEq, hd] at hck
        | jobj fields => simp [upsEq, hd] at hck
      rw [filter_insertByUpvotes_pos c _ k hk, ih, List.filter_cons]
      simp [hck]
    · have hck2 : upsEq c k = false := by simpa using hck
      rw [filter_insertByUpvotes_neg c _ k hck2, ih, List.filter_cons]
      simp [hck2]

/-- C2: `sort_comments_by_upvotes` returns a permutation of its input
(no record added, removed or mutated), sorted so `upvotes` is
non-increasing across consecutive elements, and stably: for every key
`k`, the records with `upvotes = k` appear in the same order as in the
input. -/
theorem claim_C2_rank_by_upvotes (l : List Comment)
    (h : ∀ c ∈ l, ∃ n : Int, c.upvotes = JVal.jnum n) :
    (sort_comments_by_upvotes l).Perm l
    ∧ List.Chain' (fun a b => upvotesGe a.upvotes b.upvotes = true)
        (sort_comments_by_upvotes l)
    ∧ ∀ k : Int,
        (sort_comments_by_upvotes l).filter (fun d => upsEq d k)
          = l.filter (fun d => upsEq d k) :=
  ⟨sort_comments_perm l, (sort_comments_pairwise l h).chain',
   fun k => filter_sort_comments l k⟩

/-- C2 witness: the ranking contract at the `[A(5), B(10)]` example. -/
theorem claim_C2_witness :
    (sort_comments_by_upvotes rankExample).Perm rankExample
    ∧ List.Chain' (fun a b => upvotesGe a.upvotes b.upvotes = true)
        (sort_comments_by_upvotes rankExample)
    ∧ ∀ k : Int,
        (sort_comments_by_upvotes rankExample).filter (fun d => upsEq d k)
          = rankExample.filter (fun d => upsEq d k) :=
  claim_C2_rank_by_upvotes rankExample (by
    intro c hc
    simp only [rankExample, List.mem_cons, List.not_mem_nil, or_false] at hc
    rcases hc with rfl | rfl
    · exact ⟨5, rfl⟩
    · exact ⟨10, rfl⟩)
